import Mathlib

/-!
Verification development for the fast file copy system
(`src/fastcopy-python.py`, class `FastCopySystem`).

The program is embedded shallowly:

* paths are lists of components (`List String`); a filesystem is a list of
  `(path, bytes)` pairs with bytes as `List Nat`;
* the SQLite index table (`path TEXT PRIMARY KEY, size INTEGER, mtime REAL`)
  is a list of rows; `REPLACE INTO` deletes the conflicting row and inserts;
* Python file objects are `Handle` values carrying a cursor position and the
  file contents; `read`/`write`/`seek` are modelled exactly as in CPython
  (a read past end of file yields the empty buffer, a write overwrites at
  the current cursor position and advances it);
* the dynamic typing slip in `_copy_large_file` (the variable `threads` is
  first the int `4`, then rebound to the empty list before `range(threads)`
  is evaluated) is modelled with a small Python value type `PyVal` and a
  `pyRange` that raises `TypeError` on a list argument;
* the chunk-copy loop is given an explicit fuel argument standing for the
  number of loop iterations, so that termination of the `while size > 0`
  loop becomes the statement that some finite fuel makes the loop finish.
-/

namespace FastCopy

/-- `self.large_file_threshold = 1024 * 1024 * 100` (line 14). -/
def large_file_threshold : Nat := 1024 * 1024 * 100

/-- The small-file filter of `_archive_small_files` (line 46):
a file is collected when `os.path.getsize(path) < self.large_file_threshold`.
Files are `(path, size)` pairs here. -/
def smallFiles (files : List (List String × Nat)) : List (List String × Nat) :=
  files.filter (fun f => decide (f.2 < large_file_threshold))

/-- The large-file worklist query of `run` (lines 99-101):
`SELECT path FROM file_index WHERE size >= ?` with the threshold bound. -/
def largeFilesQuery (files : List (List String × Nat)) : List (List String × Nat) :=
  files.filter (fun f => decide (large_file_threshold ≤ f.2))

/-- `chunk_size = file_size // threads` (line 59). -/
def chunk_size (file_size threads : Nat) : Nat := file_size / threads

/-- `offset = i * chunk_size` (line 64). -/
def chunkOffset (file_size threads i : Nat) : Nat :=
  i * chunk_size file_size threads

/-- `size = chunk_size if i != threads-1 else file_size - offset` (line 65). -/
def chunkLen (file_size threads i : Nat) : Nat :=
  if i = threads - 1 then file_size - chunkOffset file_size threads i
  else chunk_size file_size threads

/-- The list of `(offset, size)` ranges produced by the loop
`for i in range(threads)` of `_copy_large_file` (lines 63-65). -/
def chunkPlan (file_size threads : Nat) : List (Nat × Nat) :=
  (List.range threads).map
    (fun i => (chunkOffset file_size threads i, chunkLen file_size threads i))

/-- A Python file object: cursor position plus file contents (bytes). -/
structure Handle where
  pos : Nat
  data : List Nat
  deriving DecidableEq

/-- `f.read(n)`: returns up to `n` bytes starting at the cursor (empty past
end of file) and advances the cursor by the number of bytes returned. -/
def readH (h : Handle) (n : Nat) : List Nat × Handle :=
  let buf := (h.data.drop h.pos).take n
  (buf, { h with pos := h.pos + buf.length })

/-- `f.write(buf)`: overwrites bytes at the cursor (zero-filling any gap past
end of file, as the OS does) and advances the cursor. -/
def writeH (h : Handle) (buf : List Nat) : Handle :=
  { pos := h.pos + buf.length
    data := h.data.take h.pos ++ List.replicate (h.pos - h.data.length) 0
            ++ buf ++ h.data.drop (h.pos + buf.length) }

/-- The `while size > 0` loop of `_copy_chunk` (lines 80-83):
`buf = fsrc.read(min(1024*1024, size)); fdest.write(buf); size -= len(buf)`.
`fuel` bounds the number of iterations; `none` means the loop had not
finished within `fuel` iterations. -/
def copyChunkLoop (fuel : Nat) (fsrc fdest : Handle) (size : Nat) :
    Option (Handle × Handle) :=
  if size = 0 then some (fsrc, fdest)
  else
    match fuel with
    | 0 => none
    | fuel' + 1 =>
      let r := readH fsrc (min (1024 * 1024) size)
      copyChunkLoop fuel' r.2 (writeH fdest r.1) (size - r.1.length)

/-- `_copy_chunk(fsrc, fdest, offset, size)` (lines 77-83): seeks `fsrc` to
`offset` — note the source never seeks `fdest` — then runs the copy loop. -/
def copyChunk (fsrc fdest : Handle) (offset size fuel : Nat) :
    Option (Handle × Handle) :=
  copyChunkLoop fuel { fsrc with pos := offset } fdest size

/-- A Python value, enough to model the rebinding of `threads`. -/
inductive PyVal where
  | int : Nat → PyVal
  | list : List PyVal → PyVal

/-- Python runtime errors raised by the embedded fragments. -/
inductive PyErr where
  | typeError
  deriving DecidableEq

/-- Python `n // v`: integer floor division; a list divisor is a `TypeError`. -/
def pyDiv (n : Nat) : PyVal → Except PyErr Nat
  | PyVal.int m => Except.ok (n / m)
  | PyVal.list _ => Except.error PyErr.typeError

/-- Python `range(v)`: a list argument is a
`TypeError: 'list' object cannot be interpreted as an integer`. -/
def pyRange : PyVal → Except PyErr (List Nat)
  | PyVal.int n => Except.ok (List.range n)
  | PyVal.list _ => Except.error PyErr.typeError

/-- `_copy_large_file` (lines 55-75), up to the construction of the per-task
`(offset, size)` arguments. Line 58 binds `threads = 4`; line 59 computes
`chunk_size = file_size // threads`; line 62 rebinds `threads = []`; line 63
then evaluates `range(threads)` on the *list*, a `TypeError`, so the task
list is never built (and the later `threads-1` on line 65 would fail too). -/
def copyLargeFileTasks (file_size : Nat) : Except PyErr (List (Nat × Nat)) := do
  let threads : PyVal := PyVal.int 4
  let cs ← pyDiv file_size threads
  let threads : PyVal := PyVal.list []
  let idxs ← pyRange threads
  pure (idxs.map (fun i => (i * cs, if i = 4 - 1 then file_size - i * cs else cs)))

/-- `os.walk(self.src)` over an explicit filesystem: the files whose path
lies under the root. -/
def walkFiles (fs : List (List String × List Nat)) (root : List String) :
    List (List String × List Nat) :=
  fs.filter (fun f => root.isPrefixOf f.1)

/-- `_archive_small_files` (lines 40-53): collect the files under `self.src`
whose size is below the threshold and `tar.add(file)` each one. `tar.add`
with no `arcname` stores the walk path itself (drive and leading separators
stripped — in this component model, the path's components unchanged), NOT
the path relative to `self.src`; each archive record is `(arcname, bytes)`. -/
def archiveSmallFiles (fs : List (List String × List Nat)) (src : List String) :
    List (List String × List Nat) :=
  (walkFiles fs src).filter (fun f => decide (f.2.length < large_file_threshold))

/-- `os.path.relpath(path, self.src)` (line 104) for a path under `self.src`:
drop the root components. -/
def relPath (path root : List String) : List String :=
  path.drop root.length

/-- OS-level resolution of `..` components while joining a path, as happens
when `tar.extractall` joins the destination with a member name. -/
def resolveComps (comps : List String) : List String :=
  comps.foldl (fun acc c => if c = ".." then acc.dropLast else acc ++ [c]) []

/-- `tar.extractall(self.dest)` (lines 111-112): every record is written at
`dest` joined with its stored name, with no check of the member names — the
source has no traversal check and defines no `CorruptArchiveError`. -/
def extractAll (dest : List String) (archive : List (List String × List Nat)) :
    List (List String × List Nat) :=
  archive.map (fun r => (resolveComps (dest ++ r.1), r.2))

/-- One index row `(path, size, mtime)` of table `file_index` (lines 22-23). -/
def IndexRow : Type := String × Nat × Nat

/-- `REPLACE INTO file_index VALUES (?, ?, ?)` (lines 28-29) on a table whose
`path` column is the primary key: the conflicting row (if any) is deleted and
the new row inserted wholesale. -/
def upsertRow (tbl : List IndexRow) (path : String) (size mtime : Nat) :
    List IndexRow :=
  (path, size, mtime) :: tbl.filter (fun r => decide (r.1 ≠ path))

/-- `SELECT`-by-path point lookup on the index table. -/
def lookupRow (tbl : List IndexRow) (path : String) : Option (Nat × Nat) :=
  (tbl.find? (fun r => r.1 == path)).map (fun r => r.2)

/-- A sequence of upserts applied to the freshly created (empty) table. -/
def applyUpserts (ops : List (String × Nat × Nat)) : List IndexRow :=
  ops.foldl (fun t op => upsertRow t op.1 op.2.1 op.2.2) []

/-- Errors of `os.stat` on a vanished or unreadable path. -/
inductive OSErr where
  | statFailed
  deriving DecidableEq

/-- `_update_index(path)` (lines 25-30): `os.stat(path)` then `REPLACE INTO`;
there is no `try`/`except`, so a stat failure propagates to the caller. -/
def updateIndex (statf : String → Except OSErr (Nat × Nat))
    (tbl : List IndexRow) (path : String) : Except OSErr (List IndexRow) :=
  (statf path).map (fun st => upsertRow tbl path st.1 st.2)

/-- `_get_ntfs_changes` (lines 32-38): walk the paths and `_update_index`
each one; again no handler, so the first failing path aborts the whole walk
(and with it `run`). -/
def getNtfsChanges (statf : String → Except OSErr (Nat × Nat))
    (tbl : List IndexRow) (paths : List String) :
    Except OSErr (List IndexRow) :=
  paths.foldlM (updateIndex statf) tbl

/-- A stat function under which path `"b"` has vanished. -/
def failingStat (p : String) : Except OSErr (Nat × Nat) :=
  if p = "b" then Except.error OSErr.statFailed else Except.ok (1, 1)

/-!  Theorems  -/

/-- Claim C6: classification partitions the files into two disjoint sets by
comparing each size with the configured threshold, whose default is
100 MiB = 104857600 bytes: strictly below goes to the small (batched) set,
at least the threshold goes to the large (chunk-copied) set, and no file is
in both or in neither. -/
theorem classification_partitions (files : List (List String × Nat))
    (f : List String × Nat) (hf : f ∈ files) :
    large_file_threshold = 104857600
    ∧ (f ∈ smallFiles files ↔ f.2 < large_file_threshold)
    ∧ (f ∈ largeFilesQuery files ↔ large_file_threshold ≤ f.2)
    ∧ ((f ∈ smallFiles files ∧ f ∉ largeFilesQuery files)
        ∨ (f ∈ largeFilesQuery files ∧ f ∉ smallFiles files)) := by
  refine ⟨rfl, ?_, ?_, ?_⟩
  · simp [smallFiles, List.mem_filter, hf]
  · simp [largeFilesQuery, List.mem_filter, hf]
  · by_cases h : f.2 < large_file_threshold
    · exact Or.inl (by simp [smallFiles, largeFilesQuery, List.mem_filter, hf, h, Nat.not_le.mpr h])
    · exact Or.inr (by simp [smallFiles, largeFilesQuery, List.mem_filter, hf, h, Nat.le_of_not_lt h])

/-- Witness for C6 at a concrete file list. -/
theorem classification_partitions_witness :
    ((["a"], 0) : List String × Nat) ∈ [((["a"], 0) : List String × Nat), ((["b"], 104857600) : List String × Nat)]
    ∧ (large_file_threshold = 104857600
      ∧ (((["a"], 0) : List String × Nat) ∈ smallFiles [((["a"], 0)), ((["b"], 104857600))] ↔ (0 : Nat) < large_file_threshold)
      ∧ (((["a"], 0) : List String × Nat) ∈ largeFilesQuery [((["a"], 0)), ((["b"], 104857600))] ↔ large_file_threshold ≤ 0)
      ∧ ((((["a"], 0) : List String × Nat) ∈ smallFiles [((["a"], 0)), ((["b"], 104857600))]
            ∧ ((["a"], 0) : List String × Nat) ∉ largeFilesQuery [((["a"], 0)), ((["b"], 104857600))])
          ∨ (((["a"], 0) : List String × Nat) ∈ largeFilesQuery [((["a"], 0)), ((["b"], 104857600))]
            ∧ ((["a"], 0) : List String × Nat) ∉ smallFiles [((["a"], 0)), ((["b"], 104857600))]))) :=
  ⟨by simp, classification_partitions _ _ (by simp)⟩

/-- The keys of a table stay duplicate-free under one `REPLACE INTO`. -/
theorem upsertRow_keys_nodup (tbl : List IndexRow) (path : String)
    (size mtime : Nat) (h : (tbl.map (fun r => r.1)).Nodup) :
    (((upsertRow tbl path size mtime).map (fun r => r.1))).Nodup := by
  simp only [upsertRow, List.map_cons, List.nodup_cons]
  constructor
  · intro hmem
    rcases List.mem_map.mp hmem with ⟨r, hr, hkey⟩
    rcases List.mem_filter.mp hr with ⟨_, hne⟩
    exact (of_decide_eq_true hne) hkey
  · exact h.sublist ((List.filter_sublist tbl).map (fun r => r.1))

/-- Claim C9: after any sequence of upserts into the freshly created index
table there is at most one row per path, and an upsert replaces the row for
its path wholesale: a point lookup right after `upsert(path, size, mtime)`
returns exactly `(size, mtime)`. -/
theorem index_one_row_per_path_and_wholesale_replace :
    (∀ ops : List (String × Nat × Nat),
      ((applyUpserts ops).map (fun r => r.1)).Nodup)
    ∧ (∀ (tbl : List IndexRow) (path : String) (size mtime : Nat),
      lookupRow (upsertRow tbl path size mtime) path = some (size, mtime)) := by
  constructor
  · intro ops
    suffices h : ∀ (l : List (String × Nat × Nat)) (t : List IndexRow),
        (t.map (fun r => r.1)).Nodup →
        ((l.foldl (fun t op => upsertRow t op.1 op.2.1 op.2.2) t).map (fun r => r.1)).Nodup by
      exact h ops [] (by simp)
    intro l
    induction l with
    | nil => intro t ht; simpa using ht
    | cons op rest ih =>
      intro t ht
      exact ih _ (upsertRow_keys_nodup t op.1 op.2.1 op.2.2 ht)
  · intro tbl path size mtime
    simp [lookupRow, upsertRow, List.find?]

/-- Claim C2 (failing run): packing the 3-byte file `d/src/a` (source root
`d/src`) and unpacking at destination root `dst` recreates the bytes at
`dst/d/src/a` — the full walk path joined under the destination — and not at
`dst/a`, the destination joined with the path relative to the source root
that the claim requires. -/
theorem pack_unpack_misplaces_small_file :
    extractAll ["dst"] (archiveSmallFiles [(["d", "src", "a"], [1, 2, 3])] ["d", "src"])
      = [(["dst", "d", "src", "a"], [1, 2, 3])]
    ∧ (["dst", "d", "src", "a"] : List String) ≠ ["dst"] ++ relPath ["d", "src", "a"] ["d", "src"] := by
  constructor
  · rfl
  · decide

/-- Claim C3 (failing run): `_copy_chunk` on the range `[3, 6)` of a 6-byte
source, with the destination handle freshly opened (cursor 0), writes the
three bytes at destination offsets `[0, 3)`: the function never seeks the
destination handle. Destination byte 3 does not equal source byte 3. -/
theorem copy_chunk_writes_at_dest_cursor :
    copyChunk ⟨0, [10, 11, 12, 13, 14, 15]⟩ ⟨0, []⟩ 3 3 3
      = some (⟨6, [10, 11, 12, 13, 14, 15]⟩, ⟨3, [13, 14, 15]⟩)
    ∧ ([13, 14, 15] : List Nat).get? 3 ≠ ([10, 11, 12, 13, 14, 15] : List Nat).get? 3 := by
  constructor
  · rfl
  · decide

/-- Claim C4 (failing run): `_copy_large_file` on a 300 MiB file raises
`TypeError` at `range(threads)` — `threads` was rebound from `4` to the empty
thread list — so no worker task ever starts and no byte is copied, let alone
through per-task private handles (the code in fact passes the one shared
`fsrc` and the one shared `fdest` to every task it tries to create). -/
theorem copy_large_file_raises_type_error :
    copyLargeFileTasks (300 * 1024 * 1024) = Except.error PyErr.typeError := rfl

/-- Claim C7 (failing run): for every file size, `_copy_large_file` ends in
the `TypeError` from `range(threads)`: it never completes a copy, and in
particular never reports a `ChunkCopyError` (no such class exists in the
source; worker exceptions inside `threading.Thread` targets would be
swallowed anyway). -/
theorem copy_large_file_never_reports_chunk_error (file_size : Nat) :
    copyLargeFileTasks file_size = Except.error PyErr.typeError := rfl

/-- Claim C5 (failing run): unpacking the archive holding the single record
`../evil` at destination root `dst` succeeds with no error and writes the
file at `evil`, which is outside the destination root: the source calls
`tar.extractall` with no member check and defines no `CorruptArchiveError`. -/
theorem extract_writes_outside_dest_root :
    extractAll ["dst"] [(["..", "evil"], [7])] = [(["evil"], [7])]
    ∧ (["dst"] : List String).isPrefixOf ["evil"] = false := by
  constructor
  · rfl
  · decide

/-- Claim C8 (failing run): scanning paths `a`, `b`, `c` where `os.stat`
fails on `b` aborts the whole walk with the error: `_update_index` and
`_get_ntfs_changes` have no handler, so the failure is not logged or
skipped, `c` is never indexed, and the run never reaches its summary. -/
theorem stat_error_aborts_scan :
    getNtfsChanges failingStat [] ["a", "b", "c"] = Except.error OSErr.statFailed := by
  rfl

/-- A chunk offset is bounded by the file size while the index stays `≤ N`. -/
theorem chunkOffset_le (S N i : Nat) (hi : i ≤ N) : chunkOffset S N i ≤ S := by
  calc i * chunk_size S N ≤ N * chunk_size S N := Nat.mul_le_mul_right _ hi
    _ = chunk_size S N * N := Nat.mul_comm _ _
    _ ≤ S := Nat.div_mul_le_self S N

/-- For a non-last chunk, offset plus length is the next multiple of the
chunk size. -/
theorem chunk_end_eq (S N i : Nat) (h : i + 1 < N) :
    chunkOffset S N i + chunkLen S N i = (i + 1) * chunk_size S N := by
  have hne : i ≠ N - 1 := by omega
  simp only [chunkLen, if_neg hne, chunkOffset]
  ring

/-- The last chunk takes whatever is left after its offset. -/
theorem chunkLen_last (S N : Nat) :
    chunkLen S N (N - 1) = S - chunkOffset S N (N - 1) := by
  simp [chunkLen]

/-- Claim C1: for a file of `S` bytes split over `N ≥ 1` workers, the chunk
plan of `_copy_large_file` is `N` ranges `(offset, len)` that are ordered and
disjoint (each range ends no later than any later range starts), stay inside
`[0, S)`, cover every byte of `[0, S)`, and whose last range has length
`S / N + S % N`, i.e. absorbs the remainder `S % N` — for every `S`,
including `0` and sizes not divisible by `N`. -/
theorem chunk_plan_partitions (S N : Nat) (hN : 0 < N) :
    (chunkPlan S N).length = N
    ∧ (∀ i, i < N → (chunkPlan S N)[i]? = some (chunkOffset S N i, chunkLen S N i))
    ∧ (∀ i j, i < j → j < N →
        chunkOffset S N i + chunkLen S N i ≤ chunkOffset S N j)
    ∧ (∀ i, i < N → chunkOffset S N i + chunkLen S N i ≤ S)
    ∧ (∀ k, k < S → ∃ i, i < N ∧ chunkOffset S N i ≤ k
        ∧ k < chunkOffset S N i + chunkLen S N i)
    ∧ chunkLen S N (N - 1) = S / N + S % N := by
  refine ⟨by simp [chunkPlan], ?_, ?_, ?_, ?_, ?_⟩
  · intro i hi
    simp [chunkPlan, List.getElem?_range, hi]
  · intro i j hij hj
    have h1 : i + 1 < N := by omega
    rw [chunk_end_eq S N i h1]
    exact Nat.mul_le_mul_right _ (by omega : i + 1 ≤ j)
  · intro i hi
    by_cases h : i = N - 1
    · subst h
      have ha := chunkOffset_le S N (N - 1) (by omega)
      rw [chunkLen_last, Nat.add_sub_cancel' ha]
    · have h1 : i + 1 < N := by omega
      rw [chunk_end_eq S N i h1]
      calc (i + 1) * chunk_size S N ≤ N * chunk_size S N :=
            Nat.mul_le_mul_right _ (by omega)
        _ = chunk_size S N * N := Nat.mul_comm _ _
        _ ≤ S := Nat.div_mul_le_self S N
  · intro k hk
    by_cases hc : chunk_size S N = 0
    · refine ⟨N - 1, by omega, ?_, ?_⟩
      · simp [chunkOffset, hc]
      · have ha := chunkOffset_le S N (N - 1) (by omega)
        rw [chunkLen_last, Nat.add_sub_cancel' ha]
        exact hk
    · have hc' : 0 < chunk_size S N := Nat.pos_of_ne_zero hc
      by_cases hi : k / chunk_size S N < N - 1
      · refine ⟨k / chunk_size S N, by omega, Nat.div_mul_le_self k _, ?_⟩
        have hne : k / chunk_size S N ≠ N - 1 := by omega
        simp only [chunkLen, if_neg hne, chunkOffset]
        have h1 := Nat.div_add_mod k (chunk_size S N)
        have h2 := Nat.mod_lt k hc'
        calc k = chunk_size S N * (k / chunk_size S N) + k % chunk_size S N :=
              h1.symm
          _ < chunk_size S N * (k / chunk_size S N) + chunk_size S N :=
              Nat.add_lt_add_left h2 _
          _ = k / chunk_size S N * chunk_size S N + chunk_size S N := by ring
      · refine ⟨N - 1, by omega, ?_, ?_⟩
        · calc chunkOffset S N (N - 1) = (N - 1) * chunk_size S N := rfl
            _ ≤ k / chunk_size S N * chunk_size S N :=
              Nat.mul_le_mul_right _ (by omega)
            _ ≤ k := Nat.div_mul_le_self k _
        · have ha := chunkOffset_le S N (N - 1) (by omega)
          rw [chunkLen_last, Nat.add_sub_cancel' ha]
          exact hk
  · obtain ⟨n, rfl⟩ : ∃ n, N = n + 1 := ⟨N - 1, by omega⟩
    rw [chunkLen_last]
    simp only [Nat.add_sub_cancel]
    have h3 : S = (S / (n + 1) + S % (n + 1)) + n * (S / (n + 1)) := by
      calc S = (n + 1) * (S / (n + 1)) + S % (n + 1) := (Nat.div_add_mod S (n + 1)).symm
        _ = (S / (n + 1) + S % (n + 1)) + n * (S / (n + 1)) := by ring
    show S - n * (S / (n + 1)) = S / (n + 1) + S % (n + 1)
    exact Nat.sub_eq_of_eq_add h3

/-- Witness for C1 at the spec's own scenario: 10 bytes over 4 workers. -/
theorem chunk_plan_partitions_witness :
    0 < 4
    ∧ ((chunkPlan 10 4).length = 4
      ∧ (∀ i, i < 4 → (chunkPlan 10 4)[i]? = some (chunkOffset 10 4 i, chunkLen 10 4 i))
      ∧ (∀ i j, i < j → j < 4 →
          chunkOffset 10 4 i + chunkLen 10 4 i ≤ chunkOffset 10 4 j)
      ∧ (∀ i, i < 4 → chunkOffset 10 4 i + chunkLen 10 4 i ≤ 10)
      ∧ (∀ k, k < 10 → ∃ i, i < 4 ∧ chunkOffset 10 4 i ≤ k
          ∧ k < chunkOffset 10 4 i + chunkLen 10 4 i)
      ∧ chunkLen 10 4 (4 - 1) = 10 / 4 + 10 % 4) :=
  ⟨by decide, chunk_plan_partitions 10 4 (by decide)⟩

/-- One-step unfolding of the copy loop at fuel `0`. -/
theorem copyChunkLoop_zero (fsrc fdest : Handle) (size : Nat) :
    copyChunkLoop 0 fsrc fdest size =
      if size = 0 then some (fsrc, fdest) else none := rfl

/-- One-step unfolding of the copy loop at fuel `n + 1`. -/
theorem copyChunkLoop_succ (n : Nat) (fsrc fdest : Handle) (size : Nat) :
    copyChunkLoop (n + 1) fsrc fdest size =
      if size = 0 then some (fsrc, fdest)
      else copyChunkLoop n (readH fsrc (min (1024 * 1024) size)).2
        (writeH fdest (readH fsrc (min (1024 * 1024) size)).1)
        (size - (readH fsrc (min (1024 * 1024) size)).1.length) := rfl

/-- How many bytes one `fsrc.read(n)` call returns. -/
theorem readH_fst_length (h : Handle) (n : Nat) :
    (readH h n).1.length = min n (h.data.length - h.pos) := by
  simp [readH]

/-- While the assigned range stays inside the source contents, each
iteration returns at least one byte, so fuel equal to the remaining size
makes the loop finish. -/
theorem copyChunkLoop_terminates :
    ∀ (fuel : Nat) (fsrc fdest : Handle) (size : Nat), size ≤ fuel →
      fsrc.pos + size ≤ fsrc.data.length →
      (copyChunkLoop fuel fsrc fdest size).isSome = true := by
  intro fuel
  induction fuel with
  | zero =>
    intro fsrc fdest size h1 h2
    have hz : size = 0 := Nat.le_zero.mp h1
    rw [copyChunkLoop_zero, if_pos hz]
    rfl
  | succ n ih =>
    intro fsrc fdest size h1 h2
    by_cases hz : size = 0
    · rw [copyChunkLoop_succ, if_pos hz]; rfl
    · rw [copyChunkLoop_succ, if_neg hz]
      have hL := readH_fst_length fsrc (min (1024 * 1024) size)
      apply ih
      · omega
      · show fsrc.pos + (readH fsrc (min (1024 * 1024) size)).1.length
            + (size - (readH fsrc (min (1024 * 1024) size)).1.length)
            ≤ fsrc.data.length
        omega

/-- Once the remaining range extends past end of file, every read returns the
empty buffer in the end, the remaining size never reaches `0`, and the loop
exhausts any amount of fuel. -/
theorem copyChunkLoop_stuck :
    ∀ (fuel : Nat) (fsrc fdest : Handle) (size : Nat), 0 < size →
      fsrc.data.length < fsrc.pos + size →
      copyChunkLoop fuel fsrc fdest size = none := by
  intro fuel
  induction fuel with
  | zero =>
    intro fsrc fdest size h1 h2
    rw [copyChunkLoop_zero, if_neg (by omega : ¬size = 0)]
  | succ n ih =>
    intro fsrc fdest size h1 h2
    rw [copyChunkLoop_succ, if_neg (by omega : ¬size = 0)]
    have hL := readH_fst_length fsrc (min (1024 * 1024) size)
    apply ih
    · omega
    · show (readH fsrc (min (1024 * 1024) size)).2.data.length
          < fsrc.pos + (readH fsrc (min (1024 * 1024) size)).1.length
            + (size - (readH fsrc (min (1024 * 1024) size)).1.length)
      show fsrc.data.length < fsrc.pos + (readH fsrc (min (1024 * 1024) size)).1.length
          + (size - (readH fsrc (min (1024 * 1024) size)).1.length)
      omega

/-- Claim C10: the `while size > 0` loop of `_copy_chunk` terminates exactly
when the assigned range `[offset, offset + size)` lies within the source
contents: fuel `size` (one iteration per remaining byte) then suffices, and
conversely a range extending past end of file exhausts any fuel, because an
empty read leaves the remaining size unchanged. -/
theorem copy_chunk_terminates_iff_range_in_bounds
    (fsrc fdest : Handle) (offset size fuel : Nat) :
    (size ≤ fuel → offset + size ≤ fsrc.data.length →
      (copyChunk fsrc fdest offset size fuel).isSome = true)
    ∧ (0 < size → fsrc.data.length < offset + size →
      copyChunk fsrc fdest offset size fuel = none) := by
  constructor
  · intro h1 h2
    exact copyChunkLoop_terminates fuel { fsrc with pos := offset } fdest size h1 h2
  · intro h1 h2
    exact copyChunkLoop_stuck fuel { fsrc with pos := offset } fdest size h1 h2

/-- Witness for C10: in bounds, fuel `3` finishes copying `[1, 4)` of a
4-byte file; out of bounds, range `[1, 4)` of a 2-byte file loops forever. -/
theorem copy_chunk_terminates_iff_range_in_bounds_witness :
    (copyChunk ⟨0, [1, 2, 3, 4]⟩ ⟨0, []⟩ 1 3 3).isSome = true
    ∧ copyChunk ⟨7, [1, 2]⟩ ⟨0, []⟩ 1 3 5 = none :=
  ⟨(copy_chunk_terminates_iff_range_in_bounds ⟨0, [1, 2, 3, 4]⟩ ⟨0, []⟩ 1 3 3).1
      (by decide) (by decide),
   (copy_chunk_terminates_iff_range_in_bounds ⟨7, [1, 2]⟩ ⟨0, []⟩ 1 3 5).2
      (by decide) (by decide)⟩

end FastCopy
